import Mathlib

/-!
Shallow embedding of the fixture-to-reminder scheduling core of
`aecybertv_match_reminders.py`, together with theorems settling the
specification claims about it.

Modelling conventions:
* Instants (`datetime` values in the fixed reference timezone Asia/Dubai)
  are `Int` minute counts since an arbitrary epoch; `timedelta(minutes=m)`
  subtraction becomes integer subtraction, and `.date()` becomes flooring
  division by the number of minutes in a day.
* Raw fixture records (the JSON dicts returned by the provider) are records
  of `Option`-valued fields: `none` models a missing key or an unparsable
  value, so the `try/except` field extraction of the Python code becomes a
  match on those options.
* The dedup ledger `SCHEDULED_KEYS : set[str]` is a `Finset String`.
* External effects are oracles passed in as functions: a fixtures fetch is
  `Int → Int → Except Unit (List RawFixture)` (`.error` models a raised
  exception caught by the caller), and a per-chat message delivery is
  `Int → Except Unit Unit`.
-/

set_option autoImplicit false

namespace AECyberTV

/-- Minutes in a day; used to turn an instant into its calendar date. -/
def minutesPerDay : Int := 1440

/-- The calendar date (as a day index) of an instant, in the reference
timezone: models `.date()` on an `Asia/Dubai` datetime. -/
def dateOf (t : Int) : Int := Int.fdiv t minutesPerDay

/-- `REMINDER_OFFSETS = [60, 15, 0]` — minutes before kickoff. -/
def REMINDER_OFFSETS : List Int := [60, 15, 0]

/-- One entry of a league's `"seasons"` array; only its `"year"` field is
read by the code (`seasons[-1].get("year")`), absent modelled as `none`. -/
structure Season where
  year : Option Int
deriving DecidableEq

/-- The `"league"` sub-dict of a league item; only `"id"` and `"name"` are
read. `id = none` models a missing id; the code also treats id `0` as
missing (Python falsiness of `league.get("id")`). -/
structure League where
  id : Option Int
  name : String
deriving DecidableEq

/-- One item of the cached `/leagues` response: `item.get("league")` is
`none` when the key is missing or the dict empty (Python falsiness), and
`seasons` is `item.get("seasons") or []`. -/
structure LeagueItem where
  league : Option League
  seasons : List Season
deriving DecidableEq

/-- A raw fixture record as consumed by the scheduler.  Each field is the
result of one dict path used by the Python code; `none` means the path is
missing or (for the date) fails to parse:
`fixtureDate` = parsed `fx["fixture"]["date"]` as an instant,
`fixtureId` = `fx["fixture"]["id"]`,
`homeName` = `fx["teams"]["home"]["name"]`,
`awayName` = `fx["teams"]["away"]["name"]`,
`leagueName` = `fx["league"]["name"]`. -/
structure RawFixture where
  fixtureDate : Option Int
  fixtureId : Option Int
  homeName : Option String
  awayName : Option String
  leagueName : Option String
deriving DecidableEq

/-- The successfully extracted fields of a fixture (the variables bound by
the `try` block of `schedule_reminders_for_fixture`). -/
structure ParsedFixture where
  ko : Int
  home : String
  away : String
  league : String
  fixtureId : Int
deriving DecidableEq

/-- The `try` block of `schedule_reminders_for_fixture`: every field must be
present and parsable, otherwise the whole extraction fails (`except: return 0`). -/
def parseFixture (fx : RawFixture) : Option ParsedFixture :=
  match fx.fixtureDate, fx.homeName, fx.awayName, fx.leagueName, fx.fixtureId with
  | some ko, some h, some a, some lg, some fid =>
      some ⟨ko, h, a, lg, fid⟩
  | _, _, _, _, _ => none

/-- `job_key(fixture_id, offset_min) = f"{fixture_id}:{offset_min}"`. -/
def job_key (fixture_id : Int) (offset_min : Int) : String :=
  toString fixture_id ++ ":" ++ toString offset_min

/-- The Arabic label looked up per offset, with the `f"-{mins}m"` default. -/
def labelFor (mins : Int) : String :=
  if mins = 60 then "⏰ قبل ساعة"
  else if mins = 15 then "⏳ قبل 15 دقيقة"
  else if mins = 0 then "🏁 الانطلاقة"
  else "-" ++ toString mins ++ "m"

/-- One job registered with `ctx.job_queue.run_once`: its fire time and the
`data` dict plus the job `name`. -/
structure ScheduledJob where
  fireAt : Int
  home : String
  away : String
  ko : Int
  league : String
  label : String
  fixtureId : Int
  offset : Int
  name : String
deriving DecidableEq

/-- The dedupe key of a scheduled job (the job's `(fixture_id, offset)`
rendered through `job_key`). -/
def jobKeyOf (j : ScheduledJob) : String := job_key j.fixtureId j.offset

/-- The job built for offset `m` of a parsed fixture. -/
def mkJob (pf : ParsedFixture) (m : Int) : ScheduledJob :=
  { fireAt := pf.ko - m
    home := pf.home
    away := pf.away
    ko := pf.ko
    league := pf.league
    label := labelFor m
    fixtureId := pf.fixtureId
    offset := m
    name := "fx:" ++ toString pf.fixtureId ++ ":" ++ toString m }

/-- Result of a planning/scheduling step: the returned counter, the dedup
ledger afterwards, and the jobs handed to the job queue, in order. -/
structure SchedResult where
  count : Nat
  keys : Finset String
  jobs : List ScheduledJob
deriving DecidableEq

/-- The `for mins in REMINDER_OFFSETS` loop of
`schedule_reminders_for_fixture`: skip an offset whose fire time is not in
the future, skip a key already in the ledger, otherwise reserve the key,
schedule the job and count it. -/
def scheduleLoop (pf : ParsedFixture) (now : Int) :
    List Int → Finset String → SchedResult
  | [], keys => ⟨0, keys, []⟩
  | m :: rest, keys =>
    if pf.ko - m ≤ now then
      scheduleLoop pf now rest keys
    else if job_key pf.fixtureId m ∈ keys then
      scheduleLoop pf now rest keys
    else
      let r := scheduleLoop pf now rest (insert (job_key pf.fixtureId m) keys)
      ⟨r.count + 1, r.keys, mkJob pf m :: r.jobs⟩

/-- `schedule_reminders_for_fixture`: field extraction (`return 0` on
failure), the started-fixture guard `if ko <= now: return 0`, then the
offsets loop. -/
def schedule_reminders_for_fixture (now : Int) (fx : RawFixture)
    (keys : Finset String) : SchedResult :=
  match parseFixture fx with
  | none => ⟨0, keys, []⟩
  | some pf =>
    if pf.ko ≤ now then ⟨0, keys, []⟩
    else scheduleLoop pf now REMINDER_OFFSETS keys

/-- `seasons[-1].get("year") or datetime.now(TZ).year`: the year of the LAST
entry of the seasons list; a missing year, or the Python-falsy year `0`,
falls back to the current year.  (The code guards `seasons` nonempty, so the
`[]` branch is unreachable there; it also falls back for totality.) -/
def selectSeason (seasons : List Season) (nowYear : Int) : Int :=
  match seasons.getLast? with
  | none => nowYear
  | some s =>
    match s.year with
    | none => nowYear
    | some y => if y = 0 then nowYear else y

/-- The season year the SPEC asks for, in its own words ("select the latest
(maximum) season year among that league's seasons"): the maximum of the
years present in the list.  Kept separate from `selectSeason` (which follows
the source) so the two can be compared. -/
def specLatestSeasonYear (seasons : List Season) : WithBot Int :=
  (seasons.filterMap Season.year).maximum

/-- The inner `for fx in fixtures` loop of `pull_and_schedule`: parse the
kickoff (skip the fixture if that raises), skip fixtures whose converted
kickoff date is not `today`, otherwise run the fixture through
`schedule_reminders_for_fixture`, accumulating `total_jobs` and threading
the dedup ledger. -/
def processFixtures (now today : Int) :
    List RawFixture → Finset String → SchedResult
  | [], keys => ⟨0, keys, []⟩
  | fx :: rest, keys =>
    match fx.fixtureDate with
    | none => processFixtures now today rest keys
    | some ko =>
      if dateOf ko ≠ today then processFixtures now today rest keys
      else
        let r := schedule_reminders_for_fixture now fx keys
        let r2 := processFixtures now today rest r.keys
        ⟨r.count + r2.count, r2.keys, r.jobs ++ r2.jobs⟩

/-- The `for item in leagues` loop of `pull_and_schedule` for one country:
skip items with a missing/empty league dict or no seasons, pick the season
via `selectSeason`, skip a missing/zero league id, fetch the fixtures
(`continue` when the fetch raises), and process the fetched fixtures. -/
def processItems (fetch : Int → Int → Except Unit (List RawFixture))
    (now nowYear today : Int) :
    List LeagueItem → Finset String → SchedResult
  | [], keys => ⟨0, keys, []⟩
  | item :: rest, keys =>
    match item.league with
    | none => processItems fetch now nowYear today rest keys
    | some lg =>
      if item.seasons = [] then processItems fetch now nowYear today rest keys
      else
        match lg.id with
        | none => processItems fetch now nowYear today rest keys
        | some lid =>
          if lid = 0 then processItems fetch now nowYear today rest keys
          else
            match fetch lid (selectSeason item.seasons nowYear) with
            | Except.error _ => processItems fetch now nowYear today rest keys
            | Except.ok fixtures =>
              let r := processFixtures now today fixtures keys
              let r2 := processItems fetch now nowYear today rest r.keys
              ⟨r.count + r2.count, r2.keys, r.jobs ++ r2.jobs⟩

/-- Result of the country loop: `total_jobs`, `countries_touched`, the
ledger and the jobs. -/
structure CountriesResult where
  totalJobs : Nat
  countriesTouched : Nat
  keys : Finset String
  jobs : List ScheduledJob
deriving DecidableEq

/-- The outer `for country, leagues in LEAGUES_CACHE.items()` loop:
`countries_touched` counts every cache entry, and each entry's league items
are processed in order. -/
def processCountries (fetch : Int → Int → Except Unit (List RawFixture))
    (now nowYear today : Int) :
    List (String × List LeagueItem) → Finset String → CountriesResult
  | [], keys => ⟨0, 0, keys, []⟩
  | (_, items) :: rest, keys =>
    let r := processItems fetch now nowYear today items keys
    let r2 := processCountries fetch now nowYear today rest r.keys
    ⟨r.count + r2.totalJobs, r2.countriesTouched + 1, r2.keys, r.jobs ++ r2.jobs⟩

/-- A `for chat_id in list(...): try: send except: log` loop, shared by
`send_reminder_job` and the digest block of `pull_and_schedule`: every chat
id is attempted in order, a failing delivery is recorded (`false`) and the
loop keeps going. -/
def broadcastLoop (deliver : Int → Except Unit Unit) :
    List Int → List (Int × Bool)
  | [] => []
  | c :: rest =>
    (c, match deliver c with | Except.ok _ => true | Except.error _ => false)
      :: broadcastLoop deliver rest

/-- Result of one `pull_and_schedule` cycle: counters, ledger, jobs, and the
digest-broadcast attempts (empty when no digest was sent). -/
structure PullResult where
  totalJobs : Nat
  countriesTouched : Nat
  keys : Finset String
  jobs : List ScheduledJob
  digestAttempts : List (Int × Bool)
deriving DecidableEq

/-- `pull_and_schedule`: compute `today`, run the country loop, then send
the digest to every subscriber iff `SUBSCRIBERS` is nonempty and
`total_jobs > 0`.  The league cache (already ensured by
`ensure_leagues_cache`), the subscriber snapshot, the fetch oracle and the
per-chat delivery oracle are parameters. -/
def pull_and_schedule (fetch : Int → Int → Except Unit (List RawFixture))
    (deliver : Int → Except Unit Unit) (now nowYear : Int)
    (cache : List (String × List LeagueItem)) (subscribers : List Int)
    (keys : Finset String) : PullResult :=
  let today := dateOf now
  let r := processCountries fetch now nowYear today cache keys
  let digest :=
    if subscribers ≠ [] ∧ 0 < r.totalJobs then broadcastLoop deliver subscribers
    else []
  ⟨r.totalJobs, r.countriesTouched, r.keys, r.jobs, digest⟩

/-- The inputs of one pull cycle (boot, daily or manual): the external data
and clock as seen by that cycle. -/
structure CycleInput where
  fetch : Int → Int → Except Unit (List RawFixture)
  deliver : Int → Except Unit Unit
  now : Int
  nowYear : Int
  cache : List (String × List LeagueItem)
  subscribers : List Int

/-- Run a sequence of pull cycles, threading the process-lifetime dedup
ledger and collecting every job ever handed to the job queue. -/
def runCycles : List CycleInput → Finset String → Finset String × List ScheduledJob
  | [], keys => (keys, [])
  | ci :: rest, keys =>
    let r := pull_and_schedule ci.fetch ci.deliver ci.now ci.nowYear ci.cache
      ci.subscribers keys
    let r2 := runCycles rest r.keys
    (r2.1, r.jobs ++ r2.2)

/-! ### The scheduling-step invariant

`SchedStep K₀ K₁ jobs` says: a planning step that started with dedup ledger
`K₀` ended with ledger `K₁`, scheduling exactly `jobs`; the ledger only
grew, every scheduled job's key was free at the start and reserved at the
end, and no two scheduled jobs share a key. -/

def SchedStep (K₀ K₁ : Finset String) (jobs : List ScheduledJob) : Prop :=
  K₀ ⊆ K₁ ∧ (∀ j ∈ jobs, jobKeyOf j ∉ K₀ ∧ jobKeyOf j ∈ K₁) ∧
    (jobs.map jobKeyOf).Nodup

/-- The kickoff-date filter of the fixtures loop as a predicate: a fixture
survives iff its kickoff parses and its converted calendar date is `today`. -/
def keepFixture (today : Int) (fx : RawFixture) : Bool :=
  match fx.fixtureDate with
  | none => false
  | some ko => decide (dateOf ko = today)

/-- Number of jobs in a list carrying a given dedupe key. -/
def keyCount (k : String) (jobs : List ScheduledJob) : Nat :=
  jobs.countP fun j => decide (jobKeyOf j = k)

/-! ### Concrete example inputs (used by witnesses)

`exFixture` kicks off at instant 840 (14:00 on day 0 of the epoch); a
current time of 830 models 13:50 the same day. -/

/-- A well-formed fixture: id 5, kickoff 14:00 on day 0. -/
def exFixture : RawFixture :=
  ⟨some 840, some 5, some "Alpha", some "Beta", some "Liga"⟩

/-- A malformed fixture: the date parses but `fx["fixture"]["id"]` is missing. -/
def exMalformed : RawFixture :=
  ⟨some 840, none, some "Alpha", some "Beta", some "Liga"⟩

/-- A seasons list NOT sorted by year: the last entry is not the latest. -/
def exSeasonsUnsorted : List Season := [⟨some 2025⟩, ⟨some 2024⟩]

/-- A seasons list sorted ascending by year. -/
def exSeasonsSorted : List Season := [⟨some 2024⟩, ⟨some 2025⟩]

/-- A league item whose fixtures fetch will fail (league id 1). -/
def exLeagueA : LeagueItem := ⟨some ⟨some 1, "Liga A"⟩, [⟨some 2025⟩]⟩

/-- A league item whose fixtures fetch succeeds (league id 2). -/
def exLeagueB : LeagueItem := ⟨some ⟨some 2, "Liga B"⟩, [⟨some 2025⟩]⟩

/-- A fetch oracle that raises for league 1 and returns `exFixture` otherwise. -/
def exFetchPartial : Int → Int → Except Unit (List RawFixture) :=
  fun lid _ => if lid = 1 then Except.error () else Except.ok [exFixture]

/-- A fetch oracle that always returns `exFixture`. -/
def exFetchOk : Int → Int → Except Unit (List RawFixture) :=
  fun _ _ => Except.ok [exFixture]

/-- A delivery oracle that always succeeds. -/
def exDeliverOk : Int → Except Unit Unit := fun _ => Except.ok ()

/-- A delivery oracle that fails for chat 2 only. -/
def exDeliverFail : Int → Except Unit Unit :=
  fun c => if c = 2 then Except.error () else Except.ok ()

/-- A one-country league cache. -/
def exCache : List (String × List LeagueItem) := [("Spain", [exLeagueB])]

/-- One concrete pull cycle at 13:50 with one subscriber. -/
def exCycle : CycleInput := ⟨exFetchOk, exDeliverOk, 830, 2025, exCache, [77]⟩

/-! ### Helper lemmas: job keys -/

theorem string_append_cancel_left {a b c : String} (h : a ++ b = a ++ c) : b = c := by
  have hd := congrArg String.data h
  simp only [String.data_append] at hd
  have h2 := List.append_cancel_left hd
  cases b; cases c; simp only at h2; rw [h2]

theorem job_key_offset_ne (fid : Int) {m m' : Int}
    (h : toString m ≠ toString m') : job_key fid m ≠ job_key fid m' := by
  intro he
  exact h (string_append_cancel_left he)

theorem jobKeyOf_mkJob (pf : ParsedFixture) (m : Int) :
    jobKeyOf (mkJob pf m) = job_key pf.fixtureId m := rfl

theorem schedStep_refl (K : Finset String) : SchedStep K K [] :=
  ⟨Finset.Subset.refl K, by simp, by simp⟩

theorem schedStep_append {K₀ K₁ K₂ : Finset String}
    {jobs₁ jobs₂ : List ScheduledJob} (h₁ : SchedStep K₀ K₁ jobs₁)
    (h₂ : SchedStep K₁ K₂ jobs₂) : SchedStep K₀ K₂ (jobs₁ ++ jobs₂) := by
  obtain ⟨hs₁, hj₁, hn₁⟩ := h₁
  obtain ⟨hs₂, hj₂, hn₂⟩ := h₂
  refine ⟨hs₁.trans hs₂, ?_, ?_⟩
  · intro j hj
    rcases List.mem_append.mp hj with hm | hm
    · exact ⟨(hj₁ j hm).1, hs₂ (hj₁ j hm).2⟩
    · exact ⟨fun hk => (hj₂ j hm).1 (hs₁ hk), (hj₂ j hm).2⟩
  · rw [List.map_append]
    refine List.Nodup.append hn₁ hn₂ ?_
    intro k hk₁ hk₂
    rcases List.mem_map.mp hk₁ with ⟨j₁, hj₁m, rfl⟩
    rcases List.mem_map.mp hk₂ with ⟨j₂, hj₂m, he⟩
    exact (hj₂ j₂ hj₂m).1 (he ▸ (hj₁ j₁ hj₁m).2)

/-! ### `scheduleLoop` lemmas -/

theorem scheduleLoop_schedStep (pf : ParsedFixture) (now : Int) :
    ∀ (ms : List Int) (keys : Finset String),
      SchedStep keys (scheduleLoop pf now ms keys).keys
        (scheduleLoop pf now ms keys).jobs
  | [], keys => by simpa [scheduleLoop] using schedStep_refl keys
  | m :: rest, keys => by
    by_cases h1 : pf.ko - m ≤ now
    · simpa only [scheduleLoop, if_pos h1] using
        scheduleLoop_schedStep pf now rest keys
    · by_cases h2 : job_key pf.fixtureId m ∈ keys
      · simpa only [scheduleLoop, if_neg h1, if_pos h2] using
          scheduleLoop_schedStep pf now rest keys
      · have ih := scheduleLoop_schedStep pf now rest
          (insert (job_key pf.fixtureId m) keys)
        obtain ⟨hs, hj, hn⟩ := ih
        simp only [scheduleLoop, if_neg h1, if_neg h2]
        refine ⟨?_, ?_, ?_⟩
        · exact (Finset.subset_insert _ keys).trans hs
        · intro j hjm
          rcases List.mem_cons.mp hjm with rfl | hjm
          · exact ⟨by simpa [jobKeyOf_mkJob] using h2,
              by simpa [jobKeyOf_mkJob] using hs (Finset.mem_insert_self _ _)⟩
          · exact ⟨fun hk => (hj j hjm).1 (Finset.mem_insert_of_mem hk),
              (hj j hjm).2⟩
        · rw [List.map_cons]
          refine List.nodup_cons.mpr ⟨?_, hn⟩
          intro hk
          rcases List.mem_map.mp hk with ⟨j, hjm, he⟩
          exact (hj j hjm).1 (by
            rw [he, jobKeyOf_mkJob]; exact Finset.mem_insert_self _ _)

theorem scheduleLoop_keys_mono (pf : ParsedFixture) (now : Int)
    (ms : List Int) (keys : Finset String) :
    keys ⊆ (scheduleLoop pf now ms keys).keys :=
  (scheduleLoop_schedStep pf now ms keys).1

theorem scheduleLoop_count_eq_length (pf : ParsedFixture) (now : Int) :
    ∀ (ms : List Int) (keys : Finset String),
      (scheduleLoop pf now ms keys).count = (scheduleLoop pf now ms keys).jobs.length
  | [], keys => by simp [scheduleLoop]
  | m :: rest, keys => by
    by_cases h1 : pf.ko - m ≤ now
    · simpa only [scheduleLoop, if_pos h1] using
        scheduleLoop_count_eq_length pf now rest keys
    · by_cases h2 : job_key pf.fixtureId m ∈ keys
      · simpa only [scheduleLoop, if_neg h1, if_pos h2] using
          scheduleLoop_count_eq_length pf now rest keys
      · simp only [scheduleLoop, if_neg h1, if_neg h2, List.length_cons]
        rw [scheduleLoop_count_eq_length pf now rest
          (insert (job_key pf.fixtureId m) keys)]

theorem scheduleLoop_card (pf : ParsedFixture) (now : Int) :
    ∀ (ms : List Int) (keys : Finset String),
      (scheduleLoop pf now ms keys).keys.card =
        keys.card + (scheduleLoop pf now ms keys).count
  | [], keys => by simp [scheduleLoop]
  | m :: rest, keys => by
    by_cases h1 : pf.ko - m ≤ now
    · simpa only [scheduleLoop, if_pos h1] using scheduleLoop_card pf now rest keys
    · by_cases h2 : job_key pf.fixtureId m ∈ keys
      · simpa only [scheduleLoop, if_neg h1, if_pos h2] using
          scheduleLoop_card pf now rest keys
      · simp only [scheduleLoop, if_neg h1, if_neg h2]
        rw [scheduleLoop_card pf now rest (insert (job_key pf.fixtureId m) keys),
          Finset.card_insert_of_not_mem h2]
        ring

theorem scheduleLoop_count_le (pf : ParsedFixture) (now : Int) :
    ∀ (ms : List Int) (keys : Finset String),
      (scheduleLoop pf now ms keys).count ≤ ms.length
  | [], keys => by simp [scheduleLoop]
  | m :: rest, keys => by
    by_cases h1 : pf.ko - m ≤ now
    · simp only [scheduleLoop, if_pos h1, List.length_cons]
      exact (scheduleLoop_count_le pf now rest keys).trans (Nat.le_succ _)
    · by_cases h2 : job_key pf.fixtureId m ∈ keys
      · simp only [scheduleLoop, if_neg h1, if_pos h2, List.length_cons]
        exact (scheduleLoop_count_le pf now rest keys).trans (Nat.le_succ _)
      · simp only [scheduleLoop, if_neg h1, if_neg h2, List.length_cons]
        exact Nat.succ_le_succ (scheduleLoop_count_le pf now rest _)

/-! ### Lifting the invariant through the pipeline -/

theorem schedule_fixture_schedStep (now : Int) (fx : RawFixture)
    (keys : Finset String) :
    SchedStep keys (schedule_reminders_for_fixture now fx keys).keys
      (schedule_reminders_for_fixture now fx keys).jobs := by
  unfold schedule_reminders_for_fixture
  cases h : parseFixture fx with
  | none => exact schedStep_refl keys
  | some pf =>
    by_cases hk : pf.ko ≤ now
    · simpa only [if_pos hk] using schedStep_refl keys
    · simpa only [if_neg hk] using scheduleLoop_schedStep pf now REMINDER_OFFSETS keys

theorem schedule_fixture_keys_mono (now : Int) (fx : RawFixture)
    (keys : Finset String) :
    keys ⊆ (schedule_reminders_for_fixture now fx keys).keys :=
  (schedule_fixture_schedStep now fx keys).1

theorem processFixtures_schedStep (now today : Int) :
    ∀ (fxs : List RawFixture) (keys : Finset String),
      SchedStep keys (processFixtures now today fxs keys).keys
        (processFixtures now today fxs keys).jobs
  | [], keys => by simpa [processFixtures] using schedStep_refl keys
  | fx :: rest, keys => by
    cases hd : fx.fixtureDate with
    | none =>
      simpa only [processFixtures, hd] using
        processFixtures_schedStep now today rest keys
    | some ko =>
      by_cases ht : dateOf ko ≠ today
      · simpa only [processFixtures, hd, if_pos ht] using
          processFixtures_schedStep now today rest keys
      · simp only [processFixtures, hd, if_neg ht]
        exact schedStep_append (schedule_fixture_schedStep now fx keys)
          (processFixtures_schedStep now today rest _)

theorem processFixtures_keys_mono (now today : Int) (fxs : List RawFixture)
    (keys : Finset String) :
    keys ⊆ (processFixtures now today fxs keys).keys :=
  (processFixtures_schedStep now today fxs keys).1

theorem processItems_schedStep (fetch : Int → Int → Except Unit (List RawFixture))
    (now nowYear today : Int) :
    ∀ (items : List LeagueItem) (keys : Finset String),
      SchedStep keys (processItems fetch now nowYear today items keys).keys
        (processItems fetch now nowYear today items keys).jobs
  | [], keys => by simpa [processItems] using schedStep_refl keys
  | item :: rest, keys => by
    cases hl : item.league with
    | none =>
      simpa only [processItems, hl] using
        processItems_schedStep fetch now nowYear today rest keys
    | some lg =>
      by_cases hs : item.seasons = []
      · simpa only [processItems, hl, if_pos hs] using
          processItems_schedStep fetch now nowYear today rest keys
      · cases hid : lg.id with
        | none =>
          simpa only [processItems, hl, if_neg hs, hid] using
            processItems_schedStep fetch now nowYear today rest keys
        | some lid =>
          by_cases hz : lid = 0
          · simpa only [processItems, hl, if_neg hs, hid, if_pos hz] using
              processItems_schedStep fetch now nowYear today rest keys
          · cases hf : fetch lid (selectSeason item.seasons nowYear) with
            | error e =>
              simpa only [processItems, hl, if_neg hs, hid, if_neg hz, hf] using
                processItems_schedStep fetch now nowYear today rest keys
            | ok fixtures =>
              simp only [processItems, hl, if_neg hs, hid, if_neg hz, hf]
              exact schedStep_append
                (processFixtures_schedStep now today fixtures keys)
                (processItems_schedStep fetch now nowYear today rest _)

theorem processItems_keys_mono (fetch : Int → Int → Except Unit (List RawFixture))
    (now nowYear today : Int) (items : List LeagueItem) (keys : Finset String) :
    keys ⊆ (processItems fetch now nowYear today items keys).keys :=
  (processItems_schedStep fetch now nowYear today items keys).1

theorem processCountries_schedStep
    (fetch : Int → Int → Except Unit (List RawFixture)) (now nowYear today : Int) :
    ∀ (cache : List (String × List LeagueItem)) (keys : Finset String),
      SchedStep keys (processCountries fetch now nowYear today cache keys).keys
        (processCountries fetch now nowYear today cache keys).jobs
  | [], keys => by simpa [processCountries] using schedStep_refl keys
  | (c, items) :: rest, keys => by
    simp only [processCountries]
    exact schedStep_append
      (processItems_schedStep fetch now nowYear today items keys)
      (processCountries_schedStep fetch now nowYear today rest _)

theorem pull_and_schedule_schedStep
    (fetch : Int → Int → Except Unit (List RawFixture))
    (deliver : Int → Except Unit Unit) (now nowYear : Int)
    (cache : List (String × List LeagueItem)) (subscribers : List Int)
    (keys : Finset String) :
    SchedStep keys
      (pull_and_schedule fetch deliver now nowYear cache subscribers keys).keys
      (pull_and_schedule fetch deliver now nowYear cache subscribers keys).jobs := by
  simpa only [pull_and_schedule] using
    processCountries_schedStep fetch now nowYear (dateOf now) cache keys

theorem runCycles_schedStep :
    ∀ (cis : List CycleInput) (keys : Finset String),
      SchedStep keys (runCycles cis keys).1 (runCycles cis keys).2
  | [], keys => by simpa [runCycles] using schedStep_refl keys
  | ci :: rest, keys => by
    simp only [runCycles]
    exact schedStep_append
      (pull_and_schedule_schedStep ci.fetch ci.deliver ci.now ci.nowYear ci.cache
        ci.subscribers keys)
      (runCycles_schedStep rest _)

/-! ### Replay lemmas: a second identical pass schedules nothing -/

theorem scheduleLoop_replay (pf : ParsedFixture) (now : Int) :
    ∀ (ms : List Int) (K₀ K : Finset String),
      (scheduleLoop pf now ms K₀).keys ⊆ K →
      scheduleLoop pf now ms K = ⟨0, K, []⟩
  | [], K₀, K, _ => by simp [scheduleLoop]
  | m :: rest, K₀, K, h => by
    by_cases h1 : pf.ko - m ≤ now
    · rw [scheduleLoop, if_pos h1]
      rw [scheduleLoop, if_pos h1] at h
      exact scheduleLoop_replay pf now rest K₀ K h
    · by_cases h2 : job_key pf.fixtureId m ∈ K₀
      · simp only [scheduleLoop, if_neg h1, if_pos h2] at h
        have hmem : job_key pf.fixtureId m ∈ K :=
          h (scheduleLoop_keys_mono pf now rest K₀ h2)
        rw [scheduleLoop, if_neg h1, if_pos hmem]
        exact scheduleLoop_replay pf now rest K₀ K h
      · simp only [scheduleLoop, if_neg h1, if_neg h2] at h
        have hmem : job_key pf.fixtureId m ∈ K :=
          h (scheduleLoop_keys_mono pf now rest _
            (Finset.mem_insert_self _ K₀))
        rw [scheduleLoop, if_neg h1, if_pos hmem]
        exact scheduleLoop_replay pf now rest (insert (job_key pf.fixtureId m) K₀) K h

theorem schedule_fixture_replay (now : Int) (fx : RawFixture)
    (K₀ K : Finset String)
    (h : (schedule_reminders_for_fixture now fx K₀).keys ⊆ K) :
    schedule_reminders_for_fixture now fx K = ⟨0, K, []⟩ := by
  cases hp : parseFixture fx with
  | none => simp [schedule_reminders_for_fixture, hp]
  | some pf =>
    by_cases hk : pf.ko ≤ now
    · simp [schedule_reminders_for_fixture, hp, if_pos hk]
    · simp only [schedule_reminders_for_fixture, hp, if_neg hk] at h ⊢
      exact scheduleLoop_replay pf now REMINDER_OFFSETS K₀ K h

theorem processFixtures_replay (now today : Int) :
    ∀ (fxs : List RawFixture) (K₀ K : Finset String),
      (processFixtures now today fxs K₀).keys ⊆ K →
      processFixtures now today fxs K = ⟨0, K, []⟩
  | [], K₀, K, _ => by simp [processFixtures]
  | fx :: rest, K₀, K, h => by
    cases hd : fx.fixtureDate with
    | none =>
      simp only [processFixtures, hd] at h ⊢
      exact processFixtures_replay now today rest K₀ K h
    | some ko =>
      by_cases ht : dateOf ko ≠ today
      · simp only [processFixtures, hd, if_pos ht] at h ⊢
        exact processFixtures_replay now today rest K₀ K h
      · simp only [processFixtures, hd, if_neg ht] at h ⊢
        have hsub : (schedule_reminders_for_fixture now fx K₀).keys ⊆ K :=
          (processFixtures_keys_mono now today rest _).trans h
        have h1 := schedule_fixture_replay now fx K₀ K hsub
        have h2 := processFixtures_replay now today rest
          (schedule_reminders_for_fixture now fx K₀).keys K h
        simp [h1, h2]

theorem processItems_replay (fetch : Int → Int → Except Unit (List RawFixture))
    (now nowYear today : Int) :
    ∀ (items : List LeagueItem) (K₀ K : Finset String),
      (processItems fetch now nowYear today items K₀).keys ⊆ K →
      processItems fetch now nowYear today items K = ⟨0, K, []⟩
  | [], K₀, K, _ => by simp [processItems]
  | item :: rest, K₀, K, h => by
    cases hl : item.league with
    | none =>
      simp only [processItems, hl] at h ⊢
      exact processItems_replay fetch now nowYear today rest K₀ K h
    | some lg =>
      by_cases hs : item.seasons = []
      · simp only [processItems, hl, if_pos hs] at h ⊢
        exact processItems_replay fetch now nowYear today rest K₀ K h
      · cases hid : lg.id with
        | none =>
          simp only [processItems, hl, if_neg hs, hid] at h ⊢
          exact processItems_replay fetch now nowYear today rest K₀ K h
        | some lid =>
          by_cases hz : lid = 0
          · simp only [processItems, hl, if_neg hs, hid, if_pos hz] at h ⊢
            exact processItems_replay fetch now nowYear today rest K₀ K h
          · cases hf : fetch lid (selectSeason item.seasons nowYear) with
            | error e =>
              simp only [processItems, hl, if_neg hs, hid, if_neg hz, hf] at h ⊢
              exact processItems_replay fetch now nowYear today rest K₀ K h
            | ok fixtures =>
              simp only [processItems, hl, if_neg hs, hid, if_neg hz, hf] at h ⊢
              have hsub : (processFixtures now today fixtures K₀).keys ⊆ K :=
                (processItems_keys_mono fetch now nowYear today rest _).trans h
              have h1 := processFixtures_replay now today fixtures K₀ K hsub
              have h2 := processItems_replay fetch now nowYear today rest
                (processFixtures now today fixtures K₀).keys K h
              simp [h1, h2]

theorem processCountries_replay
    (fetch : Int → Int → Except Unit (List RawFixture)) (now nowYear today : Int) :
    ∀ (cache : List (String × List LeagueItem)) (K₀ K : Finset String),
      (processCountries fetch now nowYear today cache K₀).keys ⊆ K →
      (processCountries fetch now nowYear today cache K).totalJobs = 0 ∧
      (processCountries fetch now nowYear today cache K).keys = K ∧
      (processCountries fetch now nowYear today cache K).jobs = []
  | [], K₀, K, _ => by simp [processCountries]
  | (c, items) :: rest, K₀, K, h => by
    simp only [processCountries] at h ⊢
    have hsub : (processItems fetch now nowYear today items K₀).keys ⊆ K :=
      (processCountries_schedStep fetch now nowYear today rest _).1.trans h
    have h1 := processItems_replay fetch now nowYear today items K₀ K hsub
    have ih := processCountries_replay fetch now nowYear today rest
      (processItems fetch now nowYear today items K₀).keys K h
    simp [h1, ih.1, ih.2.1, ih.2.2]

/-! ### Which offsets produce jobs -/

theorem mkJob_offset (pf : ParsedFixture) (m : Int) : (mkJob pf m).offset = m := rfl

theorem scheduleLoop_offsets (pf : ParsedFixture) (now : Int) :
    ∀ (ms : List Int) (keys : Finset String),
      ms.Pairwise (fun a b => job_key pf.fixtureId a ≠ job_key pf.fixtureId b) →
      (scheduleLoop pf now ms keys).jobs.map ScheduledJob.offset =
        ms.filter (fun m =>
          decide (now < pf.ko - m ∧ job_key pf.fixtureId m ∉ keys))
  | [], keys, _ => by simp [scheduleLoop]
  | m :: rest, keys, hp => by
    have hhead := (List.pairwise_cons.mp hp).1
    have hrest := (List.pairwise_cons.mp hp).2
    by_cases h1 : pf.ko - m ≤ now
    · have hpm : ¬(now < pf.ko - m ∧ job_key pf.fixtureId m ∉ keys) := by
        rintro ⟨hlt, -⟩
        exact absurd h1 (not_le.mpr hlt)
      rw [List.filter_cons_of_neg (by simpa using hpm)]
      simpa only [scheduleLoop, if_pos h1] using
        scheduleLoop_offsets pf now rest keys hrest
    · by_cases h2 : job_key pf.fixtureId m ∈ keys
      · have hpm : ¬(now < pf.ko - m ∧ job_key pf.fixtureId m ∉ keys) := by
          rintro ⟨-, hnm⟩
          exact hnm h2
        rw [List.filter_cons_of_neg (by simpa using hpm)]
        simpa only [scheduleLoop, if_neg h1, if_pos h2] using
          scheduleLoop_offsets pf now rest keys hrest
      · have hpm : now < pf.ko - m ∧ job_key pf.fixtureId m ∉ keys :=
          ⟨not_le.mp h1, h2⟩
        rw [List.filter_cons_of_pos (by simpa using hpm)]
        simp only [scheduleLoop, if_neg h1, if_neg h2, List.map_cons, mkJob_offset]
        rw [scheduleLoop_offsets pf now rest
          (insert (job_key pf.fixtureId m) keys) hrest]
        refine congrArg (m :: ·) (List.filter_congr ?_)
        intro m' hm'
        refine decide_eq_decide.mpr (and_congr_right fun _ => not_congr ?_)
        rw [Finset.mem_insert]
        constructor
        · intro h
          rcases h with h | h
          · exact absurd h.symm (hhead m' hm')
          · exact h
        · exact Or.inr

/-! ### Broadcast loop -/

theorem broadcastLoop_map_fst (deliver : Int → Except Unit Unit) :
    ∀ (cs : List Int), (broadcastLoop deliver cs).map Prod.fst = cs
  | [] => rfl
  | c :: rest => by
    simp only [broadcastLoop, List.map_cons, broadcastLoop_map_fst deliver rest]

theorem broadcastLoop_ne_nil (deliver : Int → Except Unit Unit) (cs : List Int)
    (h : cs ≠ []) : broadcastLoop deliver cs ≠ [] := by
  cases cs with
  | nil => exact absurd rfl h
  | cons c rest => simp [broadcastLoop]

/-! ### Skipping malformed fixtures -/

theorem schedule_fixture_parse_none (now : Int) (fx : RawFixture)
    (keys : Finset String) (hfx : parseFixture fx = none) :
    schedule_reminders_for_fixture now fx keys = ⟨0, keys, []⟩ := by
  simp [schedule_reminders_for_fixture, hfx]

theorem processFixtures_skip_malformed (now today : Int) (fx : RawFixture)
    (hfx : parseFixture fx = none) :
    ∀ (pre post : List RawFixture) (keys : Finset String),
      processFixtures now today (pre ++ fx :: post) keys =
        processFixtures now today (pre ++ post) keys
  | [], post, keys => by
    cases hd : fx.fixtureDate with
    | none => simp only [List.nil_append, processFixtures, hd]
    | some ko =>
      by_cases ht : dateOf ko ≠ today
      · simp only [List.nil_append, processFixtures, hd, if_pos ht]
      · simp only [List.nil_append, processFixtures, hd, if_neg ht,
          schedule_fixture_parse_none now fx keys hfx]
        simp
  | p :: pre', post, keys => by
    cases hd : p.fixtureDate with
    | none =>
      simp only [List.cons_append, processFixtures, hd]
      exact processFixtures_skip_malformed now today fx hfx pre' post keys
    | some ko =>
      by_cases ht : dateOf ko ≠ today
      · simp only [List.cons_append, processFixtures, hd, if_pos ht]
        exact processFixtures_skip_malformed now today fx hfx pre' post keys
      · simp only [List.cons_append, processFixtures, hd, if_neg ht, List.append_eq]
        rw [processFixtures_skip_malformed now today fx hfx pre' post _]

/-! ### Skipping a league whose fixtures fetch fails -/

theorem processItems_skip_failed_fetch
    (fetch : Int → Int → Except Unit (List RawFixture)) (now nowYear today : Int)
    (item : LeagueItem) (lg : League) (lid : Int)
    (hl : item.league = some lg) (hs : item.seasons ≠ [])
    (hid : lg.id = some lid) (hz : lid ≠ 0)
    (hf : fetch lid (selectSeason item.seasons nowYear) = Except.error ()) :
    ∀ (pre post : List LeagueItem) (keys : Finset String),
      processItems fetch now nowYear today (pre ++ item :: post) keys =
        processItems fetch now nowYear today (pre ++ post) keys
  | [], post, keys => by
    simp only [List.nil_append, processItems, hl, if_neg hs, hid, if_neg hz, hf]
  | p :: pre', post, keys => by
    cases hpl : p.league with
    | none =>
      simp only [List.cons_append, processItems, hpl]
      exact processItems_skip_failed_fetch fetch now nowYear today item lg lid
        hl hs hid hz hf pre' post keys
    | some plg =>
      by_cases hps : p.seasons = []
      · simp only [List.cons_append, processItems, hpl, if_pos hps]
        exact processItems_skip_failed_fetch fetch now nowYear today item lg lid
          hl hs hid hz hf pre' post keys
      · cases hpid : plg.id with
        | none =>
          simp only [List.cons_append, processItems, hpl, if_neg hps, hpid]
          exact processItems_skip_failed_fetch fetch now nowYear today item lg lid
            hl hs hid hz hf pre' post keys
        | some plid =>
          by_cases hpz : plid = 0
          · simp only [List.cons_append, processItems, hpl, if_neg hps, hpid,
              if_pos hpz]
            exact processItems_skip_failed_fetch fetch now nowYear today item lg lid
              hl hs hid hz hf pre' post keys
          · cases hpf : fetch plid (selectSeason p.seasons nowYear) with
            | error e =>
              simp only [List.cons_append, processItems, hpl, if_neg hps, hpid,
                if_neg hpz, hpf]
              exact processItems_skip_failed_fetch fetch now nowYear today item lg lid
                hl hs hid hz hf pre' post keys
            | ok fixtures =>
              simp only [List.cons_append, processItems, hpl, if_neg hps, hpid,
                if_neg hpz, hpf, List.append_eq]
              rw [processItems_skip_failed_fetch fetch now nowYear today item lg lid
                hl hs hid hz hf pre' post _]

theorem processCountries_congr_items
    (fetch : Int → Int → Except Unit (List RawFixture)) (now nowYear today : Int)
    (country : String) (items₁ items₂ : List LeagueItem)
    (hitems : ∀ K : Finset String,
      processItems fetch now nowYear today items₁ K =
        processItems fetch now nowYear today items₂ K) :
    ∀ (preC postC : List (String × List LeagueItem)) (keys : Finset String),
      processCountries fetch now nowYear today
          (preC ++ (country, items₁) :: postC) keys =
        processCountries fetch now nowYear today
          (preC ++ (country, items₂) :: postC) keys
  | [], postC, keys => by
    simp only [List.nil_append, processCountries, hitems keys]
  | (c, its) :: preC', postC, keys => by
    simp only [List.cons_append, processCountries, List.append_eq]
    rw [processCountries_congr_items fetch now nowYear today country items₁ items₂
      hitems preC' postC _]

/-! ### Filtering the fetched fixtures to today changes nothing -/

theorem processFixtures_filter_today (now today : Int) :
    ∀ (fxs : List RawFixture) (keys : Finset String),
      processFixtures now today (fxs.filter (keepFixture today)) keys =
        processFixtures now today fxs keys
  | [], keys => by simp [List.filter_nil]
  | fx :: rest, keys => by
    cases hd : fx.fixtureDate with
    | none =>
      have hk : keepFixture today fx = false := by simp [keepFixture, hd]
      rw [List.filter_cons_of_neg (by simp [hk])]
      simp only [processFixtures, hd]
      exact processFixtures_filter_today now today rest keys
    | some ko =>
      by_cases ht : dateOf ko ≠ today
      · have hk : keepFixture today fx = false := by
          simp only [keepFixture, hd, decide_eq_false_iff_not]
          exact ht
        rw [List.filter_cons_of_neg (by simp [hk])]
        simp only [processFixtures, hd, if_pos ht]
        exact processFixtures_filter_today now today rest keys
      · have hk : keepFixture today fx = true := by
          simp only [keepFixture, hd, decide_eq_true_eq]
          exact not_ne_iff.mp ht
        rw [List.filter_cons_of_pos (by simp [hk])]
        simp only [processFixtures, hd, if_neg ht]
        rw [processFixtures_filter_today now today rest _]

theorem processItems_filter_today
    (fetch fetchF : Int → Int → Except Unit (List RawFixture))
    (now nowYear today : Int)
    (hfe : ∀ lid s, fetchF lid s =
      Except.map (List.filter (keepFixture today)) (fetch lid s)) :
    ∀ (items : List LeagueItem) (keys : Finset String),
      processItems fetchF now nowYear today items keys =
        processItems fetch now nowYear today items keys
  | [], keys => by simp [processItems]
  | item :: rest, keys => by
    cases hl : item.league with
    | none =>
      simp only [processItems, hl]
      exact processItems_filter_today fetch fetchF now nowYear today hfe rest keys
    | some lg =>
      by_cases hs : item.seasons = []
      · simp only [processItems, hl, if_pos hs]
        exact processItems_filter_today fetch fetchF now nowYear today hfe rest keys
      · cases hid : lg.id with
        | none =>
          simp only [processItems, hl, if_neg hs, hid]
          exact processItems_filter_today fetch fetchF now nowYear today hfe rest keys
        | some lid =>
          by_cases hz : lid = 0
          · simp only [processItems, hl, if_neg hs, hid, if_pos hz]
            exact processItems_filter_today fetch fetchF now nowYear today hfe rest keys
          · cases hf : fetch lid (selectSeason item.seasons nowYear) with
            | error e =>
              simp only [processItems, hl, if_neg hs, hid, if_neg hz, hf,
                hfe lid (selectSeason item.seasons nowYear), Except.map]
              exact processItems_filter_today fetch fetchF now nowYear today hfe rest keys
            | ok fixtures =>
              simp only [processItems, hl, if_neg hs, hid, if_neg hz, hf,
                hfe lid (selectSeason item.seasons nowYear), Except.map]
              rw [processFixtures_filter_today now today fixtures keys]
              rw [processItems_filter_today fetch fetchF now nowYear today hfe rest _]

theorem processCountries_filter_today
    (fetch fetchF : Int → Int → Except Unit (List RawFixture))
    (now nowYear today : Int)
    (hfe : ∀ lid s, fetchF lid s =
      Except.map (List.filter (keepFixture today)) (fetch lid s)) :
    ∀ (cache : List (String × List LeagueItem)) (keys : Finset String),
      processCountries fetchF now nowYear today cache keys =
        processCountries fetch now nowYear today cache keys
  | [], keys => by simp [processCountries]
  | (c, items) :: rest, keys => by
    simp only [processCountries]
    rw [processItems_filter_today fetch fetchF now nowYear today hfe items keys]
    rw [processCountries_filter_today fetch fetchF now nowYear today hfe rest _]

/-! ### Counting jobs per key -/

theorem countP_key_le_one_of_nodup :
    ∀ (jobs : List ScheduledJob), (jobs.map jobKeyOf).Nodup →
      ∀ (k : String), keyCount k jobs ≤ 1
  | [], _, k => by simp [keyCount]
  | j :: rest, h, k => by
    rw [List.map_cons, List.nodup_cons] at h
    by_cases hk : jobKeyOf j = k
    · have hzero : rest.countP (fun j' => decide (jobKeyOf j' = k)) = 0 := by
        rw [List.countP_eq_zero]
        intro j' hj'
        simp only [decide_eq_true_eq]
        intro he
        exact h.1 (hk ▸ he ▸ List.mem_map_of_mem jobKeyOf hj')
      simp [keyCount, List.countP_cons, hzero, hk]
    · have ih := countP_key_le_one_of_nodup rest h.2 k
      rw [keyCount] at ih ⊢
      simpa [List.countP_cons, hk] using ih

/-! ### Broadcast records a failure and keeps going -/

theorem broadcastLoop_mem_failed (deliver : Int → Except Unit Unit) (bad : Int)
    (h : deliver bad = Except.error ()) :
    ∀ (pre post : List Int),
      (bad, false) ∈ broadcastLoop deliver (pre ++ bad :: post)
  | [], post => by simp [broadcastLoop, h]
  | c :: pre', post => by
    simp only [List.cons_append, broadcastLoop]
    exact List.mem_cons_of_mem _ (broadcastLoop_mem_failed deliver bad h pre' post)

/-! ### The three reminder offsets have pairwise distinct keys -/

theorem offsets_pairwise_key_ne (fid : Int) :
    REMINDER_OFFSETS.Pairwise (fun a b => job_key fid a ≠ job_key fid b) := by
  rw [REMINDER_OFFSETS]
  refine List.Pairwise.cons ?_ (List.Pairwise.cons ?_ (List.pairwise_singleton _ _))
  · intro b hb
    rcases List.mem_cons.mp hb with rfl | hb
    · exact job_key_offset_ne fid (by decide)
    · rcases List.mem_singleton.mp hb with rfl
      exact job_key_offset_ne fid (by decide)
  · intro b hb
    rcases List.mem_singleton.mp hb with rfl
    exact job_key_offset_ne fid (by decide)

/-! ## Claim theorems -/

/-- C1: For every fixture and offset, across any number of pull cycles (boot,
daily and manual pulls in any order), at most one job is ever scheduled for a
given dedupe key; once the key is in the ledger, every later planning pass
for the same key schedules nothing. -/
theorem no_duplicate_job_per_key (cis : List CycleInput) (keys₀ : Finset String)
    (k : String) :
    keyCount k (runCycles cis keys₀).2 ≤ 1 ∧
    (k ∈ keys₀ → keyCount k (runCycles cis keys₀).2 = 0) := by
  obtain ⟨hsub, hjobs, hnodup⟩ := runCycles_schedStep cis keys₀
  refine ⟨countP_key_le_one_of_nodup _ hnodup k, fun hk => ?_⟩
  rw [keyCount, List.countP_eq_zero]
  intro j hj
  simp only [decide_eq_true_eq]
  intro he
  exact (hjobs j hj).1 (he ▸ hk)

/-- Witness for C1: one concrete cycle started with the key `"5:0"` already
in the ledger schedules no job for it. -/
theorem no_duplicate_job_per_key_witness :
    keyCount "5:0" (runCycles [exCycle] {"5:0"}).2 ≤ 1 ∧
    keyCount "5:0" (runCycles [exCycle] {"5:0"}).2 = 0 :=
  ⟨(no_duplicate_job_per_key [exCycle] {"5:0"} "5:0").1,
   (no_duplicate_job_per_key [exCycle] {"5:0"} "5:0").2 (by decide)⟩

/-- C2: running the orchestration cycle twice in immediate succession with
identical fetched fixture data schedules zero additional jobs on the second
run. -/
theorem repull_schedules_nothing_new
    (fetch : Int → Int → Except Unit (List RawFixture))
    (deliver : Int → Except Unit Unit) (now nowYear : Int)
    (cache : List (String × List LeagueItem)) (subscribers : List Int)
    (keys : Finset String) :
    (pull_and_schedule fetch deliver now nowYear cache subscribers
        (pull_and_schedule fetch deliver now nowYear cache subscribers keys).keys
      ).totalJobs = 0 := by
  have h := processCountries_replay fetch now nowYear (dateOf now) cache keys
    (processCountries fetch now nowYear (dateOf now) cache keys).keys
    (Finset.Subset.refl _)
  simp only [pull_and_schedule]
  exact h.1

/-- C3: a started fixture produces no jobs, and in general the offsets that
produce jobs are exactly those whose delivery instant is still in the future
and whose key is not yet in the ledger (past-window offsets are skipped,
future ones are unaffected). -/
theorem planner_skips_past_windows (now : Int) (keys : Finset String)
    (fx : RawFixture) (pf : ParsedFixture) (h : parseFixture fx = some pf) :
    (pf.ko ≤ now → schedule_reminders_for_fixture now fx keys = ⟨0, keys, []⟩) ∧
    (schedule_reminders_for_fixture now fx keys).jobs.map ScheduledJob.offset =
      REMINDER_OFFSETS.filter (fun m =>
        decide (now < pf.ko - m ∧ job_key pf.fixtureId m ∉ keys)) := by
  constructor
  · intro hk
    simp [schedule_reminders_for_fixture, h, if_pos hk]
  · by_cases hk : pf.ko ≤ now
    · simp only [schedule_reminders_for_fixture, h, if_pos hk, List.map_nil]
      symm
      rw [List.filter_eq_nil_iff]
      intro m hm
      simp only [decide_eq_true_eq, not_and]
      intro hlt
      rw [REMINDER_OFFSETS] at hm
      exfalso
      rcases List.mem_cons.mp hm with rfl | hm
      · omega
      · rcases List.mem_cons.mp hm with rfl | hm
        · omega
        · rcases List.mem_singleton.mp hm with rfl
          omega
    · simp only [schedule_reminders_for_fixture, h, if_neg hk]
      exact scheduleLoop_offsets pf now REMINDER_OFFSETS keys
        (offsets_pairwise_key_ne pf.fixtureId)

/-- Witness for C3, the spec scenario: kickoff 14:00 (instant 840), now
13:50 (instant 830), offsets [60, 15, 0] — only the offset-0 job is
scheduled. -/
theorem planner_skips_past_windows_witness :
    parseFixture exFixture = some ⟨840, "Alpha", "Beta", "Liga", 5⟩ ∧
    (schedule_reminders_for_fixture 830 exFixture ∅).jobs.map ScheduledJob.offset
      = [0] := by
  refine ⟨rfl, ?_⟩
  have h := (planner_skips_past_windows 830 ∅ exFixture
    ⟨840, "Alpha", "Beta", "Liga", 5⟩ rfl).2
  rw [h]
  decide

/-- C4: a malformed fixture record (missing required field) yields zero jobs,
leaves the dedup ledger unchanged, and processing of the other fixtures in
the same cycle continues as if it were absent. -/
theorem malformed_fixture_is_soft_skip (now today : Int) (fx : RawFixture)
    (hfx : parseFixture fx = none) (keys : Finset String)
    (pre post : List RawFixture) :
    schedule_reminders_for_fixture now fx keys = ⟨0, keys, []⟩ ∧
    processFixtures now today (pre ++ fx :: post) keys =
      processFixtures now today (pre ++ post) keys :=
  ⟨schedule_fixture_parse_none now fx keys hfx,
   processFixtures_skip_malformed now today fx hfx pre post keys⟩

/-- Witness for C4: a fixture missing its id is skipped softly in a batch
with a well-formed fixture. -/
theorem malformed_fixture_is_soft_skip_witness :
    schedule_reminders_for_fixture 830 exMalformed ∅ = ⟨0, ∅, []⟩ ∧
    processFixtures 830 0 ([exFixture] ++ exMalformed :: []) ∅ =
      processFixtures 830 0 ([exFixture] ++ []) ∅ :=
  malformed_fixture_is_soft_skip 830 0 exMalformed rfl ∅ [exFixture] []

/-- C5: a fixtures-fetch failure for one league is caught and does not abort
the remaining leagues/countries in the same cycle: the cycle computes
exactly what it would compute with the failing league absent, at the league
loop and at the whole-pull level. -/
theorem fetch_failure_is_isolated
    (fetch : Int → Int → Except Unit (List RawFixture))
    (deliver : Int → Except Unit Unit) (now nowYear today : Int)
    (item : LeagueItem) (lg : League) (lid : Int)
    (hl : item.league = some lg) (hs : item.seasons ≠ [])
    (hid : lg.id = some lid) (hz : lid ≠ 0)
    (hf : fetch lid (selectSeason item.seasons nowYear) = Except.error ())
    (preI postI : List LeagueItem) (country : String)
    (preC postC : List (String × List LeagueItem))
    (subscribers : List Int) (keys K : Finset String) :
    processItems fetch now nowYear today (preI ++ item :: postI) K =
      processItems fetch now nowYear today (preI ++ postI) K ∧
    pull_and_schedule fetch deliver now nowYear
        (preC ++ (country, preI ++ item :: postI) :: postC) subscribers keys =
      pull_and_schedule fetch deliver now nowYear
        (preC ++ (country, preI ++ postI) :: postC) subscribers keys := by
  refine ⟨processItems_skip_failed_fetch fetch now nowYear today item lg lid
    hl hs hid hz hf preI postI K, ?_⟩
  have hc := processCountries_congr_items fetch now nowYear (dateOf now) country
    (preI ++ item :: postI) (preI ++ postI)
    (fun K' => processItems_skip_failed_fetch fetch now nowYear (dateOf now)
      item lg lid hl hs hid hz hf preI postI K')
    preC postC keys
  simp only [pull_and_schedule, hc]

/-- Witness for C5: league A's fetch raises, league B's succeeds; the cycle
equals the cycle without A. -/
theorem fetch_failure_is_isolated_witness :
    processItems exFetchPartial 830 2025 0 ([] ++ exLeagueA :: [exLeagueB]) ∅ =
      processItems exFetchPartial 830 2025 0 ([] ++ [exLeagueB]) ∅ ∧
    pull_and_schedule exFetchPartial exDeliverOk 830 2025
        ([] ++ ("Spain", [] ++ exLeagueA :: [exLeagueB]) :: []) [77] ∅ =
      pull_and_schedule exFetchPartial exDeliverOk 830 2025
        ([] ++ ("Spain", [] ++ [exLeagueB]) :: []) [77] ∅ :=
  fetch_failure_is_isolated exFetchPartial exDeliverOk 830 2025 0 exLeagueA
    ⟨some 1, "Liga A"⟩ 1 rfl (by decide) rfl (by decide) rfl
    [] [exLeagueB] "Spain" [] [] [77] ∅ ∅

/-- C6: a broadcast over the subscriber set attempts delivery to every
subscriber even when one delivery fails, records the failure instead of
raising, and keeps going after the failing subscriber. -/
theorem broadcast_attempts_all_subscribers (deliver : Int → Except Unit Unit)
    (pre post : List Int) (bad : Int) (h : deliver bad = Except.error ()) :
    (broadcastLoop deliver (pre ++ bad :: post)).map Prod.fst =
      pre ++ bad :: post ∧
    (bad, false) ∈ broadcastLoop deliver (pre ++ bad :: post) :=
  ⟨broadcastLoop_map_fst deliver _, broadcastLoop_mem_failed deliver bad h pre post⟩

/-- Witness for C6: chat 2 fails; chats 1, 2 and 3 are all still attempted. -/
theorem broadcast_attempts_all_subscribers_witness :
    (broadcastLoop exDeliverFail ([1] ++ 2 :: [3])).map Prod.fst =
      [1] ++ 2 :: [3] ∧
    (2, false) ∈ broadcastLoop exDeliverFail ([1] ++ 2 :: [3]) :=
  broadcast_attempts_all_subscribers exDeliverFail [1] [3] 2 rfl

/-- C7 counterexample: the code selects `seasons[-1]`'s year, not the
maximum.  On the seasons list `[2025, 2024]` it selects 2024 while the
latest (maximum) season year is 2025. -/
theorem selectSeason_not_latest_counterexample :
    selectSeason exSeasonsUnsorted 2030 = 2024 ∧
    specLatestSeasonYear exSeasonsUnsorted = ((2025 : Int) : WithBot Int) ∧
    selectSeason exSeasonsUnsorted 2030 ≠ 2025 := by
  refine ⟨rfl, ?_, by decide⟩
  decide

/-- C7 (amended): the orchestrator selects the year of the LAST entry of the
league's seasons list (falling back to the current year when that entry's
year is missing or 0); when every season year is bounded by the last entry's
year — in particular when the list is sorted ascending by year — this equals
the latest (maximum) season year. -/
theorem selectSeason_last_entry_eq_max_when_sorted (seasons : List Season)
    (nowYear : Int) (s : Season) (y : Int)
    (hlast : seasons.getLast? = some s) (hy : s.year = some y) (hz : y ≠ 0)
    (hub : ∀ t ∈ seasons, t.year.getD y ≤ y) :
    selectSeason seasons nowYear = y ∧
    specLatestSeasonYear seasons = ((y : Int) : WithBot Int) := by
  constructor
  · simp [selectSeason, hlast, hy, hz]
  · have hmem : s ∈ seasons := by
      obtain ⟨hne, hxeq⟩ := List.mem_getLast?_eq_getLast (Option.mem_def.mpr hlast)
      rw [hxeq]
      exact List.getLast_mem hne
    have hymem : y ∈ seasons.filterMap Season.year :=
      List.mem_filterMap.mpr ⟨s, hmem, hy⟩
    rw [specLatestSeasonYear]
    refine List.maximum_eq_coe_iff.mpr ⟨hymem, ?_⟩
    intro b hb
    obtain ⟨t, ht, hty⟩ := List.mem_filterMap.mp hb
    have := hub t ht
    rw [hty] at this
    exact this

/-- Witness for C7 (amended): on the ascending list `[2024, 2025]` the
selection is the last entry's year 2025, which is also the maximum. -/
theorem selectSeason_last_entry_eq_max_when_sorted_witness :
    selectSeason exSeasonsSorted 2030 = 2025 ∧
    specLatestSeasonYear exSeasonsSorted = ((2025 : Int) : WithBot Int) :=
  selectSeason_last_entry_eq_max_when_sorted exSeasonsSorted 2030 ⟨some 2025⟩ 2025
    rfl rfl (by decide) (by decide)

/-- C8: a fetched fixture whose kickoff date (in the reference timezone) is
not "today" is excluded from planning and scheduling — filtering the fixture
lists down to today's fixtures changes nothing, both at the fixtures loop
and for the whole pull cycle. -/
theorem only_todays_fixtures_planned
    (fetch : Int → Int → Except Unit (List RawFixture))
    (deliver : Int → Except Unit Unit) (now nowYear today : Int)
    (fxs : List RawFixture) (keys : Finset String)
    (cache : List (String × List LeagueItem)) (subscribers : List Int) :
    processFixtures now today (fxs.filter (keepFixture today)) keys =
      processFixtures now today fxs keys ∧
    pull_and_schedule
        (fun lid s =>
          Except.map (List.filter (keepFixture (dateOf now))) (fetch lid s))
        deliver now nowYear cache subscribers keys =
      pull_and_schedule fetch deliver now nowYear cache subscribers keys := by
  refine ⟨processFixtures_filter_today now today fxs keys, ?_⟩
  have hc := processCountries_filter_today fetch
    (fun lid s =>
      Except.map (List.filter (keepFixture (dateOf now))) (fetch lid s))
    now nowYear (dateOf now) (fun _ _ => rfl) cache keys
  simp only [pull_and_schedule, hc]

/-- C9: the one-line summary digest is broadcast (to every subscriber) iff
at least one job was newly scheduled in the cycle and at least one
subscriber exists; otherwise nothing is sent. -/
theorem digest_iff_jobs_and_subscribers
    (fetch : Int → Int → Except Unit (List RawFixture))
    (deliver : Int → Except Unit Unit) (now nowYear : Int)
    (cache : List (String × List LeagueItem)) (subscribers : List Int)
    (keys : Finset String) :
    ((pull_and_schedule fetch deliver now nowYear cache subscribers keys
        ).digestAttempts ≠ [] ↔
      0 < (pull_and_schedule fetch deliver now nowYear cache subscribers keys
        ).totalJobs ∧ subscribers ≠ []) ∧
    (pull_and_schedule fetch deliver now nowYear cache subscribers keys
        ).digestAttempts.map Prod.fst =
      if subscribers ≠ [] ∧
        0 < (pull_and_schedule fetch deliver now nowYear cache subscribers keys
          ).totalJobs
      then subscribers else [] := by
  simp only [pull_and_schedule]
  by_cases hcond : subscribers ≠ [] ∧
    0 < (processCountries fetch now nowYear (dateOf now) cache keys).totalJobs
  · rw [if_pos hcond, if_pos hcond]
    refine ⟨⟨fun _ => ⟨hcond.2, hcond.1⟩,
      fun _ => broadcastLoop_ne_nil deliver subscribers hcond.1⟩,
      broadcastLoop_map_fst deliver subscribers⟩
  · rw [if_neg hcond, if_neg hcond]
    refine ⟨⟨fun hfalse => absurd rfl hfalse,
      fun hc => absurd ⟨hc.2, hc.1⟩ hcond⟩, by simp⟩

/-- C10: scheduling reminders for one fixture returns a count between 0 and
3 (the number of offsets), the dedup ledger only grows and grows by exactly
that count, and the count equals the number of jobs handed to the queue. -/
theorem ledger_grows_by_scheduled_count (now : Int) (fx : RawFixture)
    (keys : Finset String) :
    (schedule_reminders_for_fixture now fx keys).count ≤ 3 ∧
    keys ⊆ (schedule_reminders_for_fixture now fx keys).keys ∧
    (schedule_reminders_for_fixture now fx keys).keys.card =
      keys.card + (schedule_reminders_for_fixture now fx keys).count ∧
    (schedule_reminders_for_fixture now fx keys).count =
      (schedule_reminders_for_fixture now fx keys).jobs.length := by
  unfold schedule_reminders_for_fixture
  cases hp : parseFixture fx with
  | none => simp
  | some pf =>
    by_cases hk : pf.ko ≤ now
    · simp [if_pos hk]
    · simp only [if_neg hk]
      refine ⟨?_, (scheduleLoop_schedStep pf now REMINDER_OFFSETS keys).1,
        scheduleLoop_card pf now REMINDER_OFFSETS keys,
        scheduleLoop_count_eq_length pf now REMINDER_OFFSETS keys⟩
      have hlen := scheduleLoop_count_le pf now REMINDER_OFFSETS keys
      simpa [REMINDER_OFFSETS] using hlen

end AECyberTV
